import Mathlib

/-!
Verification of the agent-conduit streaming adapter.

This file gives a shallow embedding of the repository's core components:
the SSE event protocol (packages/core/src/protocol.ts), the UI converter
(packages/core/src/convert.ts), the stream translator
(packages/claude/src/translator.ts), the permission gate
(packages/claude/src/permission-gate.ts), the push channel
(packages/claude/src/push-channel.ts), the session manager (session.ts)
and the HTTP respond handler (packages/claude/src/router.ts), together
with theorems about the specified behaviour.

JavaScript runtime values that cross the wire are modelled by a `Json`
inductive.  `JSON.stringify` and `JSON.parse` are modelled by `serialize`
and `jsonParse` below; numbers are modelled as integers (non-integral
floating point payloads are outside the model) and the parser model
accepts the whitespace-free canonical grammar that `serialize` emits.
-/

namespace AgentConduit

/-- Model of a JavaScript JSON value (numbers restricted to integers). -/
inductive Json where
  | null : Json
  | bool (b : Bool) : Json
  | num (n : Int) : Json
  | str (s : String) : Json
  | arr (items : List Json) : Json
  | obj (fields : List (String × Json)) : Json

/-- The decimal digit character for `d` (meaningful for `d < 10`). -/
def digitChar (d : Nat) : Char := Char.ofNat (48 + d)

/-- Decimal digits of a natural number, most significant first. -/
def natChars (n : Nat) : List Char :=
  if n = 0 then ['0'] else ((Nat.digits 10 n).reverse).map digitChar

/-- Decimal rendering of an integer, as `JSON.stringify` prints it. -/
def intChars (n : Int) : List Char :=
  if n < 0 then '-' :: natChars n.natAbs else natChars n.natAbs

/-- Lower-case hexadecimal digit character for `d < 16`. -/
def hexDigitChar (d : Nat) : Char :=
  if d < 10 then digitChar d else Char.ofNat (87 + d)

/-- The six-character `\u00XX` escape of a control character code. -/
def controlEscape (n : Nat) : List Char :=
  '\\' :: 'u' :: '0' :: '0' :: hexDigitChar (n / 16) :: [hexDigitChar (n % 16)]

/-- How `JSON.stringify` escapes one character inside a string literal. -/
def escapeChar (c : Char) : List Char :=
  if c = '"' then ['\\', '"']
  else if c = '\\' then ['\\', '\\']
  else if c = Char.ofNat 8 then ['\\', 'b']
  else if c = Char.ofNat 12 then ['\\', 'f']
  else if c = '\n' then ['\\', 'n']
  else if c = '\r' then ['\\', 'r']
  else if c = '\t' then ['\\', 't']
  else if c.toNat < 32 then controlEscape c.toNat
  else [c]

/-- Escape every character of a string body. -/
def escapeList (cs : List Char) : List Char := (cs.map escapeChar).flatten

/-- A JSON string literal: quote, escaped body, quote. -/
def strChars (s : String) : List Char := '"' :: (escapeList s.data ++ ['"'])

mutual

/-- Model of `JSON.stringify` (compact form, no added whitespace). -/
def serialize : Json → List Char
  | .null => "null".data
  | .bool true => "true".data
  | .bool false => "false".data
  | .num n => intChars n
  | .str s => strChars s
  | .arr items => '[' :: (serItems items ++ [']'])
  | .obj fields => '{' :: (serObj fields ++ ['}'])

/-- Comma-separated serialization of array elements. -/
def serItems : List Json → List Char
  | [] => []
  | [v] => serialize v
  | v :: vs => serialize v ++ ',' :: serItems vs

/-- Comma-separated serialization of object fields. -/
def serObj : List (String × Json) → List Char
  | [] => []
  | [(k, v)] => strChars k ++ ':' :: serialize v
  | (k, v) :: fs => strChars k ++ ':' :: serialize v ++ ',' :: serObj fs

end

/-- Value of a hexadecimal digit character, as `JSON.parse` reads it. -/
def hexVal (c : Char) : Option Nat :=
  if 48 ≤ c.toNat ∧ c.toNat ≤ 57 then some (c.toNat - 48)
  else if 97 ≤ c.toNat ∧ c.toNat ≤ 102 then some (c.toNat - 87)
  else if 65 ≤ c.toNat ∧ c.toNat ≤ 70 then some (c.toNat - 55)
  else none

/-- The character denoted by a single-letter JSON escape sequence. -/
def unescapeChar (e : Char) : Option Char :=
  if e = '"' then some '"'
  else if e = '\\' then some '\\'
  else if e = '/' then some '/'
  else if e = 'b' then some (Char.ofNat 8)
  else if e = 'f' then some (Char.ofNat 12)
  else if e = 'n' then some '\n'
  else if e = 'r' then some '\r'
  else if e = 't' then some '\t'
  else none

/-- Parse the body of a JSON string literal up to its closing quote,
returning the decoded characters and the remaining input. -/
def parseStringBody (cs : List Char) : Option (List Char × List Char) :=
  match cs with
  | [] => none
  | c :: rest =>
    if c = '"' then some ([], rest)
    else if c = '\\' then
      match rest with
      | [] => none
      | e :: rest2 =>
        if e = 'u' then
          match rest2 with
          | h1 :: h2 :: h3 :: h4 :: rest3 =>
            match hexVal h1, hexVal h2, hexVal h3, hexVal h4 with
            | some a, some b, some c4, some d =>
              (parseStringBody rest3).map
                (fun p => (Char.ofNat (a * 4096 + b * 256 + c4 * 16 + d) :: p.1, p.2))
            | _, _, _, _ => none
          | _ => none
        else
          match unescapeChar e with
          | some u => (parseStringBody rest2).map (fun p => (u :: p.1, p.2))
          | none => none
    else (parseStringBody rest).map (fun p => (c :: p.1, p.2))

/-- Numeric value of a decimal digit character. -/
def digitVal (c : Char) : Nat := c.toNat - 48

/-- Parse a nonempty run of decimal digits into a natural number. -/
def parseNat (cs : List Char) : Option (Nat × List Char) :=
  let ds := cs.takeWhile Char.isDigit
  if ds = [] then none
  else some (ds.foldl (fun a c => a * 10 + digitVal c) 0, cs.dropWhile Char.isDigit)

/-- Consume the literal characters `ls` from the front of the input. -/
def dropLit : List Char → List Char → Option (List Char)
  | [], cs => some cs
  | l :: ls, c :: cs => if c = l then dropLit ls cs else none
  | _ :: _, [] => none

mutual

/-- Model of the value grammar of `JSON.parse` (whitespace-free form; the
fuel argument bounds the nesting and sequencing depth). -/
def parseValue : Nat → List Char → Option (Json × List Char)
  | 0, _ => none
  | _ + 1, [] => none
  | f + 1, c :: cs =>
    if c = 'n' then (dropLit ['u', 'l', 'l'] cs).map (fun r => (Json.null, r))
    else if c = 't' then (dropLit ['r', 'u', 'e'] cs).map (fun r => (Json.bool true, r))
    else if c = 'f' then (dropLit ['a', 'l', 's', 'e'] cs).map (fun r => (Json.bool false, r))
    else if c = '"' then
      (parseStringBody cs).map (fun p => (Json.str (String.mk p.1), p.2))
    else if c = '[' then
      match cs with
      | ']' :: r => some (Json.arr [], r)
      | _ => (parseItems f cs).map (fun p => (Json.arr p.1, p.2))
    else if c = '{' then
      match cs with
      | '}' :: r => some (Json.obj [], r)
      | _ => (parseFields f cs).map (fun p => (Json.obj p.1, p.2))
    else if c = '-' then (parseNat cs).map (fun p => (Json.num (-(p.1 : Int)), p.2))
    else if c.isDigit then (parseNat (c :: cs)).map (fun p => (Json.num (p.1 : Int), p.2))
    else none

/-- Parse the elements of a nonempty JSON array up to `]`. -/
def parseItems : Nat → List Char → Option (List Json × List Char)
  | 0, _ => none
  | f + 1, cs =>
    match parseValue f cs with
    | some (v, ',' :: r) => (parseItems f r).map (fun p => (v :: p.1, p.2))
    | some (v, ']' :: r) => some ([v], r)
    | _ => none

/-- Parse the members of a nonempty JSON object up to the closing brace. -/
def parseFields : Nat → List Char → Option (List (String × Json) × List Char)
  | 0, _ => none
  | f + 1, cs =>
    match cs with
    | '"' :: cs1 =>
      match parseStringBody cs1 with
      | some (k, ':' :: cs2) =>
        match parseValue f cs2 with
        | some (v, ',' :: r) =>
          (parseFields f r).map (fun p => ((String.mk k, v) :: p.1, p.2))
        | some (v, '}' :: r) => some ([(String.mk k, v)], r)
        | _ => none
      | _ => none
    | _ => none

end

/-- Model of `JSON.parse`: parse one value and require the input to be
fully consumed. -/
def jsonParse (cs : List Char) : Option Json :=
  match parseValue (cs.length + 1) cs with
  | some (v, []) => some v
  | _ => none

/-- Permission behavior, the `"allow" | "deny"` union of protocol.ts. -/
inductive Behavior where
  | allow : Behavior
  | deny : Behavior
deriving DecidableEq

/-- The `AgentEvent` sum type of packages/core/src/protocol.ts.  Optional
fields are `Option`s; a `none` models the key being absent from the
emitted object.  `Record<string, unknown>` fields are association lists
of JSON values and `unknown` fields are JSON values. -/
inductive AgentEvent where
  | sessionInit (sessionId : String)
  | result (res : Option String)
  | error (message : String)
  | messageStart (parentToolUseId : Option String)
  | textDelta (text : String)
  | thinkingDelta (text : String)
  | toolStart (toolCallId toolName : String)
  | toolInputDelta (toolCallId : String) (text : String)
  | toolCall (toolCallId toolName : String) (input : List (String × Json))
  | toolResult (toolCallId : String) (res : Json) (isError : Option Bool)
  | permissionRequest (id toolName : String) (input : List (String × Json))
      (toolUseId reason : Option String)
  | permissionResolved (id : String) (behavior : Behavior)
  | userQuestion (id question : String) (options : List (String × String))
  | userQuestionAnswered (id answer : String)

/-- Wire string for a permission behavior. -/
def behaviorStr : Behavior → String
  | .allow => "allow"
  | .deny => "deny"

/-- An optional object field: absent when the value is `none`. -/
def optField (k : String) : Option Json → List (String × Json)
  | none => []
  | some v => [(k, v)]

/-- The JSON object a runtime `AgentEvent` value is: field names and
order follow the object literals in the source, optional fields omitted
when not set. -/
def jsonOfEvent : AgentEvent → Json
  | .sessionInit sid =>
      .obj [("type", .str "session_init"), ("sessionId", .str sid)]
  | .result r =>
      .obj (("type", .str "result") :: optField "result" (r.map .str))
  | .error m =>
      .obj [("type", .str "error"), ("message", .str m)]
  | .messageStart p =>
      .obj ([("type", .str "message_start"), ("role", .str "assistant")] ++
        optField "parentToolUseId" (p.map .str))
  | .textDelta t =>
      .obj [("type", .str "text_delta"), ("text", .str t)]
  | .thinkingDelta t =>
      .obj [("type", .str "thinking_delta"), ("text", .str t)]
  | .toolStart id name =>
      .obj [("type", .str "tool_start"), ("toolCallId", .str id), ("toolName", .str name)]
  | .toolInputDelta id t =>
      .obj [("type", .str "tool_input_delta"), ("toolCallId", .str id), ("text", .str t)]
  | .toolCall id name input =>
      .obj [("type", .str "tool_call"), ("toolCallId", .str id),
        ("toolName", .str name), ("input", .obj input)]
  | .toolResult id r e =>
      .obj ([("type", .str "tool_result"), ("toolCallId", .str id), ("result", r)] ++
        optField "isError" (e.map .bool))
  | .permissionRequest id name input toolUseId reason =>
      .obj ([("type", .str "permission_request"), ("id", .str id),
        ("toolName", .str name), ("input", .obj input)] ++
        optField "toolUseId" (toolUseId.map .str) ++
        optField "reason" (reason.map .str))
  | .permissionResolved id b =>
      .obj [("type", .str "permission_resolved"), ("id", .str id),
        ("behavior", .str (behaviorStr b))]
  | .userQuestion id q options =>
      .obj [("type", .str "user_question"), ("id", .str id), ("question", .str q),
        ("options", .arr (options.map (fun o =>
          .obj [("label", .str o.1), ("description", .str o.2)])))]
  | .userQuestionAnswered id a =>
      .obj [("type", .str "user_question_answered"), ("id", .str id), ("answer", .str a)]

/-- Model of `encodeEvent`: `"data: " + JSON.stringify(event) + "\n\n"`. -/
def encodeEvent (e : AgentEvent) : String :=
  String.mk ("data: ".data ++ serialize (jsonOfEvent e) ++ ['\n', '\n'])

/-- Model of `encodeDone`: `"data: [DONE]\n\n"`. -/
def encodeDone : String :=
  String.mk ("data: ".data ++ "[DONE]".data ++ ['\n', '\n'])

/-- Whitespace as `String.prototype.trim` treats it (the subset relevant
to this protocol; the full JS class also has exotic Unicode members). -/
def isJsWs (c : Char) : Bool :=
  c = ' ' || c = '\t' || c = '\n' || c = '\r' || c = Char.ofNat 11 || c = Char.ofNat 12

/-- Model of `String.prototype.trim`. -/
def jsTrim (s : String) : String :=
  String.mk (((s.data.dropWhile isJsWs).reverse.dropWhile isJsWs).reverse)

/-- Model of `decodeEvent`: require the `"data: "` prefix (else throw),
return `none` for the `[DONE]` marker, else `JSON.parse` the payload.
A thrown `Error` is modelled by `Except.error`. -/
def decodeEvent (line : String) : Except String (Option Json) :=
  let cs := line.data
  if cs.take 6 = "data: ".data then
    let payload := cs.drop 6
    if payload = "[DONE]".data then .ok none
    else
      match jsonParse payload with
      | some v => .ok (some v)
      | none => .error "JSON parse error"
  else .error ("Expected SSE data line, got: " ++ line)

/-- A list whose head, if any, is not a decimal digit; a number followed
by such a remainder parses back without absorbing extra characters. -/
def DigitFree (rest : List Char) : Prop :=
  ∀ c, rest.head? = some c → c.isDigit = false

theorem digitFree_nil : DigitFree [] := by
  intro c h
  simp at h

theorem digitFree_cons {c : Char} (h : c.isDigit = false) (rest : List Char) :
    DigitFree (c :: rest) := by
  intro d hd
  simp at hd
  simpa [← hd] using h

theorem dropLit_append (ls cs : List Char) : dropLit ls (ls ++ cs) = some cs := by
  induction ls with
  | nil => simp [dropLit]
  | cons l ls ih => simp [dropLit, ih]

theorem takeWhile_append_of {p : Char → Bool} {l1 l2 : List Char}
    (h1 : ∀ c ∈ l1, p c = true) (h2 : ∀ c, l2.head? = some c → p c = false) :
    (l1 ++ l2).takeWhile p = l1 := by
  induction l1 with
  | nil =>
    cases l2 with
    | nil => rfl
    | cons c t => simp [List.takeWhile, h2 c rfl]
  | cons c t ih =>
    have hc : p c = true := h1 c (by simp)
    simp only [List.cons_append, List.takeWhile_cons, hc]
    simp [ih (fun d hd => h1 d (by simp [hd]))]

theorem dropWhile_append_of {p : Char → Bool} {l1 l2 : List Char}
    (h1 : ∀ c ∈ l1, p c = true) (h2 : ∀ c, l2.head? = some c → p c = false) :
    (l1 ++ l2).dropWhile p = l2 := by
  induction l1 with
  | nil =>
    cases l2 with
    | nil => rfl
    | cons c t => simp [List.dropWhile, h2 c rfl]
  | cons c t ih =>
    have hc : p c = true := h1 c (by simp)
    simp only [List.cons_append, List.dropWhile_cons, hc]
    simpa using ih (fun d hd => h1 d (by simp [hd]))

theorem digitChar_toNat {d : Nat} (h : d < 10) : (digitChar d).toNat = 48 + d := by
  interval_cases d <;> decide

theorem digitChar_isDigit {d : Nat} (h : d < 10) : (digitChar d).isDigit = true := by
  interval_cases d <;> decide

theorem digitVal_digitChar {d : Nat} (h : d < 10) : digitVal (digitChar d) = d := by
  interval_cases d <;> decide

/-- A decimal digit character differs from every structural character of
the JSON grammar. -/
theorem digitChar_ne {d : Nat} (h : d < 10) :
    digitChar d ≠ 'n' ∧ digitChar d ≠ 't' ∧ digitChar d ≠ 'f' ∧
    digitChar d ≠ '"' ∧ digitChar d ≠ '[' ∧ digitChar d ≠ '{' ∧
    digitChar d ≠ '-' ∧ digitChar d ≠ ']' ∧ digitChar d ≠ '}' := by
  interval_cases d <;> decide

theorem natChars_all_digits (n : Nat) : ∀ c ∈ natChars n, c.isDigit = true := by
  intro c hc
  unfold natChars at hc
  by_cases h : n = 0
  · simp [h] at hc
    simp [hc]
  · simp [h] at hc
    obtain ⟨d, hd, rfl⟩ := hc
    exact digitChar_isDigit (Nat.digits_lt_base (by norm_num) hd)

theorem natChars_shape (n : Nat) :
    ∃ d t, natChars n = digitChar d :: t ∧ d < 10 := by
  unfold natChars
  by_cases h : n = 0
  · exact ⟨0, [], by simp [h, digitChar], by norm_num⟩
  · have hne : Nat.digits 10 n ≠ [] := Nat.digits_ne_nil_iff_ne_zero.mpr h
    rcases hrev : (Nat.digits 10 n).reverse with _ | ⟨d, t⟩
    · exact absurd (by simpa using congrArg List.reverse hrev) hne
    · refine ⟨d, t.map digitChar, by simp [h, hrev], ?_⟩
      have : d ∈ Nat.digits 10 n := by
        have : d ∈ (Nat.digits 10 n).reverse := by simp [hrev]
        simpa using this
      exact Nat.digits_lt_base (by norm_num) this

theorem foldl_digitVal_natChars (n : Nat) :
    (natChars n).foldl (fun a c => a * 10 + digitVal c) 0 = n := by
  unfold natChars
  by_cases h : n = 0
  · simp [h]
    decide
  · simp only [h, if_false]
    rw [List.foldl_map]
    have hmem : ∀ (a : Nat) (d : Nat), d ∈ (Nat.digits 10 n).reverse →
        a * 10 + digitVal (digitChar d) = a * 10 + d := by
      intro a d hd
      have : d < 10 := Nat.digits_lt_base (by norm_num) (by simpa using hd)
      rw [digitVal_digitChar this]
    calc ((Nat.digits 10 n).reverse).foldl (fun a d => a * 10 + digitVal (digitChar d)) 0
        = ((Nat.digits 10 n).reverse).foldl (fun a d => a * 10 + d) 0 :=
          List.foldl_ext _ _ _ (fun a d hd => hmem a d hd)
      _ = (Nat.digits 10 n).foldr (fun d a => a * 10 + d) 0 := List.foldl_reverse ..
      _ = Nat.ofDigits 10 (Nat.digits 10 n) := by
          induction Nat.digits 10 n with
          | nil => simp [Nat.ofDigits]
          | cons d l ih => simp [Nat.ofDigits_cons, ih]; ring
      _ = n := Nat.ofDigits_digits 10 n

theorem parseNat_natChars (n : Nat) (rest : List Char) (h : DigitFree rest) :
    parseNat (natChars n ++ rest) = some (n, rest) := by
  have htake := takeWhile_append_of (natChars_all_digits n) h
  have hdrop := dropWhile_append_of (natChars_all_digits n) h
  have hne : natChars n ≠ [] := by
    obtain ⟨d, t, hshape, _⟩ := natChars_shape n
    simp [hshape]
  simp [parseNat, htake, hdrop, hne, foldl_digitVal_natChars]

theorem hexVal_hexDigitChar {d : Nat} (h : d < 16) : hexVal (hexDigitChar d) = some d := by
  interval_cases d <;> decide

theorem parseStringBody_quote (rest : List Char) :
    parseStringBody ('"' :: rest) = some ([], rest) := by
  rw [parseStringBody.eq_def]
  simp

theorem parseStringBody_esc {e u : Char} (he : unescapeChar e = some u) (hu : e ≠ 'u')
    (rest : List Char) :
    parseStringBody ('\\' :: e :: rest) = (parseStringBody rest).map (fun p => (u :: p.1, p.2)) := by
  rw [parseStringBody.eq_def]
  simp [hu, he]

theorem parseStringBody_plain {c : Char} (h1 : c ≠ '"') (h2 : c ≠ '\\') (rest : List Char) :
    parseStringBody (c :: rest) = (parseStringBody rest).map (fun p => (c :: p.1, p.2)) := by
  rw [parseStringBody.eq_def]
  simp [h1, h2]

theorem parseStringBody_hex {a b c4 d : Nat} {h1 h2 h3 h4 : Char}
    (ha : hexVal h1 = some a) (hb : hexVal h2 = some b)
    (hc : hexVal h3 = some c4) (hd : hexVal h4 = some d) (rest : List Char) :
    parseStringBody ('\\' :: 'u' :: h1 :: h2 :: h3 :: h4 :: rest) =
      (parseStringBody rest).map
        (fun p => (Char.ofNat (a * 4096 + b * 256 + c4 * 16 + d) :: p.1, p.2)) := by
  rw [parseStringBody.eq_def]
  simp [ha, hb, hc, hd]

theorem parseStringBody_escape (s rest : List Char) :
    parseStringBody (escapeList s ++ '"' :: rest) = some (s, rest) := by
  induction s with
  | nil => simpa [escapeList] using parseStringBody_quote rest
  | cons c t ih =>
    have hesc : escapeList (c :: t) = escapeChar c ++ escapeList t := by
      simp [escapeList]
    rw [hesc, List.append_assoc]
    unfold escapeChar
    split_ifs with h1 h2 h3 h4 h5 h6 h7 h8
    · subst h1
      simp [parseStringBody_esc (by decide : unescapeChar '"' = some '"') (by decide), ih]
    · subst h2
      simp [parseStringBody_esc (by decide : unescapeChar '\\' = some '\\') (by decide), ih]
    · subst h3
      simp [parseStringBody_esc (by decide : unescapeChar 'b' = some (Char.ofNat 8)) (by decide),
        ih]
    · subst h4
      simp [parseStringBody_esc (by decide : unescapeChar 'f' = some (Char.ofNat 12)) (by decide),
        ih]
    · subst h5
      simp [parseStringBody_esc (by decide : unescapeChar 'n' = some '\n') (by decide), ih]
    · subst h6
      simp [parseStringBody_esc (by decide : unescapeChar 'r' = some '\r') (by decide), ih]
    · subst h7
      simp [parseStringBody_esc (by decide : unescapeChar 't' = some '\t') (by decide), ih]
    · have hdiv : c.toNat / 16 < 16 := by omega
      have hmod : c.toNat % 16 < 16 := by omega
      have hv : 0 * 4096 + 0 * 256 + c.toNat / 16 * 16 + c.toNat % 16 = c.toNat := by
        omega
      have h0 : hexVal '0' = some 0 := by decide
      simp only [controlEscape, List.cons_append, List.nil_append]
      rw [parseStringBody_hex h0 h0 (hexVal_hexDigitChar hdiv) (hexVal_hexDigitChar hmod), ih]
      have hv2 : c.toNat / 16 * 16 + c.toNat % 16 = c.toNat := by omega
      simp [hv2, Char.ofNat_toNat]
    · simp only [List.cons_append, List.nil_append]
      rw [parseStringBody_plain h1 h2, ih]
      rfl

mutual

/-- Fuel sufficient for `parseValue` to parse the serialization of `v`. -/
def jsonFuel : Json → Nat
  | .null => 1
  | .bool _ => 1
  | .num _ => 1
  | .str _ => 1
  | .arr items => 1 + itemsFuel items
  | .obj fields => 1 + fieldsFuel fields

/-- Fuel sufficient for `parseItems` on serialized array elements. -/
def itemsFuel : List Json → Nat
  | [] => 0
  | v :: vs => 1 + max (jsonFuel v) (itemsFuel vs)

/-- Fuel sufficient for `parseFields` on serialized object members. -/
def fieldsFuel : List (String × Json) → Nat
  | [] => 0
  | (_, v) :: fs => 1 + max (jsonFuel v) (fieldsFuel fs)

end

mutual

theorem jsonFuel_le : ∀ v : Json, jsonFuel v ≤ (serialize v).length
  | .null => by simp [jsonFuel, serialize]
  | .bool b => by cases b <;> simp [jsonFuel, serialize]
  | .num n => by
    simp only [jsonFuel, serialize, intChars]
    obtain ⟨d, t, hshape, _⟩ := natChars_shape n.natAbs
    split <;> simp [hshape]
  | .str s => by simp [jsonFuel, serialize, strChars]
  | .arr items => by
    have h := itemsFuel_le items
    simp only [jsonFuel, serialize]
    simp only [List.length_cons, List.length_append, List.length_singleton]
    omega
  | .obj fields => by
    have h := fieldsFuel_le fields
    simp only [jsonFuel, serialize]
    simp only [List.length_cons, List.length_append, List.length_singleton]
    omega

theorem itemsFuel_le : ∀ vs : List Json, itemsFuel vs ≤ (serItems vs).length + 1
  | [] => by simp [itemsFuel]
  | [v] => by
    have h := jsonFuel_le v
    simp only [itemsFuel, serItems]
    omega
  | v :: w :: ws => by
    have h1 := jsonFuel_le v
    have h2 := itemsFuel_le (w :: ws)
    simp only [itemsFuel, serItems, List.length_append, List.length_cons] at h2 ⊢
    omega

theorem fieldsFuel_le : ∀ fs : List (String × Json), fieldsFuel fs ≤ (serObj fs).length + 1
  | [] => by simp [fieldsFuel]
  | [(k, v)] => by
    have h := jsonFuel_le v
    simp only [fieldsFuel, serObj, List.length_append, List.length_cons]
    omega
  | (k, v) :: g :: gs => by
    have h1 := jsonFuel_le v
    have h2 := fieldsFuel_le (g :: gs)
    simp only [fieldsFuel, serObj, List.length_append, List.length_cons] at h2 ⊢
    omega

end

/-- The first character of a serialized value is never a closing bracket,
closing brace, or whitespace. -/
theorem serialize_shape (v : Json) :
    ∃ c t, serialize v = c :: t ∧ c ≠ ']' ∧ c ≠ '}' := by
  cases v with
  | null => exact ⟨'n', _, rfl, by decide, by decide⟩
  | bool b =>
    cases b with
    | false => exact ⟨'f', _, rfl, by decide, by decide⟩
    | true => exact ⟨'t', _, rfl, by decide, by decide⟩
  | num n =>
    obtain ⟨d, t, hshape, hd⟩ := natChars_shape n.natAbs
    by_cases hneg : n < 0
    · exact ⟨'-', natChars n.natAbs, by simp [serialize, intChars, hneg], by decide, by decide⟩
    · obtain ⟨_, _, _, _, _, _, _, h8, h9⟩ := digitChar_ne hd
      exact ⟨digitChar d, t, by simp [serialize, intChars, hneg, hshape], h8, h9⟩
  | str s => exact ⟨'"', _, rfl, by decide, by decide⟩
  | arr items => exact ⟨'[', _, rfl, by decide, by decide⟩
  | obj fields => exact ⟨'{', _, rfl, by decide, by decide⟩

theorem stringMk_data : ∀ s : String, String.mk s.data = s
  | ⟨_⟩ => rfl

theorem jsonFuel_pos (v : Json) : 1 ≤ jsonFuel v := by
  cases v <;> simp [jsonFuel]

/-- Adequacy of the parser model on serialized output: with enough fuel,
`parseValue` reads back exactly the value `serialize` printed, leaving
the remainder untouched (for numbers the remainder must not begin with a
digit, which holds at every call site of the grammar). -/
theorem parse_adequate : ∀ f : Nat,
    (∀ v rest, jsonFuel v ≤ f → DigitFree rest →
      parseValue f (serialize v ++ rest) = some (v, rest)) ∧
    (∀ v vs rest, itemsFuel (v :: vs) ≤ f →
      parseItems f (serItems (v :: vs) ++ ']' :: rest) = some (v :: vs, rest)) ∧
    (∀ k jv fs rest, fieldsFuel ((k, jv) :: fs) ≤ f →
      parseFields f (serObj ((k, jv) :: fs) ++ '}' :: rest) = some ((k, jv) :: fs, rest)) := by
  intro f
  induction f with
  | zero =>
    refine ⟨?_, ?_, ?_⟩
    · intro v rest hfuel _
      exact absurd (le_trans (jsonFuel_pos v) hfuel) (by norm_num)
    · intro v vs rest hfuel
      simp [itemsFuel] at hfuel
    · intro k jv fs rest hfuel
      simp [fieldsFuel] at hfuel
  | succ f ih =>
    obtain ⟨ihP, ihQ, ihR⟩ := ih
    refine ⟨?_, ?_, ?_⟩
    · intro v rest hfuel hdf
      cases v with
      | null =>
        rw [show serialize Json.null ++ rest = 'n' :: ('u' :: 'l' :: 'l' :: rest) from rfl]
        rw [parseValue.eq_def]
        simpa using dropLit_append ['u', 'l', 'l'] rest
      | bool b =>
        cases b with
        | true =>
          rw [show serialize (Json.bool true) ++ rest = 't' :: ('r' :: 'u' :: 'e' :: rest)
            from rfl]
          rw [parseValue.eq_def]
          simpa using dropLit_append ['r', 'u', 'e'] rest
        | false =>
          rw [show serialize (Json.bool false) ++ rest =
            'f' :: ('a' :: 'l' :: 's' :: 'e' :: rest) from rfl]
          rw [parseValue.eq_def]
          simpa using dropLit_append ['a', 'l', 's', 'e'] rest
      | num n =>
        by_cases hneg : n < 0
        · have hser : serialize (Json.num n) ++ rest = '-' :: (natChars n.natAbs ++ rest) := by
            simp [serialize, intChars, hneg]
          rw [hser, parseValue.eq_def]
          simp [parseNat_natChars n.natAbs rest hdf]
          rw [abs_of_neg hneg]
          ring
        · obtain ⟨d, t, hshape, hd⟩ := natChars_shape n.natAbs
          obtain ⟨hn, ht, hf, hq, hlb, hlbr, hm, _, _⟩ := digitChar_ne hd
          have hser : serialize (Json.num n) ++ rest =
              digitChar d :: (t ++ rest) := by
            simp [serialize, intChars, hneg, hshape]
          rw [hser, parseValue.eq_def]
          have habs : ((n.natAbs : Nat) : Int) = n := by omega
          have hnat : parseNat (digitChar d :: (t ++ rest)) = some (n.natAbs, rest) := by
            have := parseNat_natChars n.natAbs rest hdf
            rwa [hshape] at this
          simp [hn, ht, hf, hq, hlb, hlbr, hm, digitChar_isDigit hd, hnat, habs]
      | str s =>
        have hser : serialize (Json.str s) ++ rest =
            '"' :: (escapeList s.data ++ '"' :: rest) := by
          simp [serialize, strChars]
        rw [hser, parseValue.eq_def]
        simp [parseStringBody_escape s.data rest, stringMk_data]
      | arr items =>
        cases items with
        | nil =>
          rw [show serialize (Json.arr []) ++ rest = '[' :: (']' :: rest) from rfl]
          rw [parseValue.eq_def]
          simp
        | cons v vs =>
          obtain ⟨c, t, hserv, hc1, hc2⟩ := serialize_shape v
          have hhead : ∃ Y, serItems (v :: vs) ++ ']' :: rest = c :: Y := by
            cases vs with
            | nil => exact ⟨t ++ ']' :: rest, by simp [serItems, hserv]⟩
            | cons w ws =>
              exact ⟨t ++ ',' :: serItems (w :: ws) ++ ']' :: rest, by
                simp [serItems, hserv]⟩
          obtain ⟨Y, hY⟩ := hhead
          have hser : serialize (Json.arr (v :: vs)) ++ rest =
              '[' :: (serItems (v :: vs) ++ ']' :: rest) := by
            simp [serialize]
          rw [hser, parseValue.eq_def]
          have hfuel2 : itemsFuel (v :: vs) ≤ f := by
            simp only [jsonFuel] at hfuel
            omega
          have hq := ihQ v vs rest hfuel2
          rw [hY] at hq ⊢
          simp only [parseValue.eq_def]
          simp only [Char.reduceEq, reduceIte]
          split
          · rename_i r heq
            exact absurd (List.cons.inj heq).1 hc1
          · rw [hq]
            rfl
      | obj fields =>
        cases fields with
        | nil =>
          rw [show serialize (Json.obj []) ++ rest = '{' :: ('}' :: rest) from rfl]
          rw [parseValue.eq_def]
          simp
        | cons kv fs =>
          obtain ⟨k, jv⟩ := kv
          have hser : serialize (Json.obj ((k, jv) :: fs)) ++ rest =
              '{' :: (serObj ((k, jv) :: fs) ++ '}' :: rest) := by
            simp [serialize]
          have hhead : ∃ Y, serObj ((k, jv) :: fs) ++ '}' :: rest = '"' :: Y := by
            cases fs with
            | nil =>
              exact ⟨(escapeList k.data ++ ['"']) ++ ':' :: serialize jv ++ '}' :: rest, by
                simp [serObj, strChars]⟩
            | cons g gs =>
              exact ⟨(escapeList k.data ++ ['"']) ++
                ':' :: serialize jv ++ ',' :: serObj (g :: gs) ++ '}' :: rest, by
                simp [serObj, strChars]⟩
          obtain ⟨Y, hY⟩ := hhead
          rw [hser, parseValue.eq_def]
          have hfuel2 : fieldsFuel ((k, jv) :: fs) ≤ f := by
            simp only [jsonFuel] at hfuel
            omega
          have hr := ihR k jv fs rest hfuel2
          rw [hY] at hr ⊢
          simp only [parseValue.eq_def]
          simp only [Char.reduceEq, reduceIte]
          split
          · rename_i r heq
            exact absurd (List.cons.inj heq).1 (by decide)
          · rw [hr]
            rfl
    · intro v vs rest hfuel
      cases vs with
      | nil =>
        have hfv : jsonFuel v ≤ f := by
          simp only [itemsFuel] at hfuel
          omega
        have hp := ihP v (']' :: rest) hfv (digitFree_cons (by decide) rest)
        rw [show serItems [v] ++ ']' :: rest = serialize v ++ ']' :: rest by simp [serItems]]
        rw [parseItems.eq_def]
        simp [hp]
      | cons w ws =>
        have hfv : jsonFuel v ≤ f := by
          simp only [itemsFuel] at hfuel
          omega
        have hfw : itemsFuel (w :: ws) ≤ f := by
          simp only [itemsFuel] at hfuel ⊢
          omega
        have harr : serItems (v :: w :: ws) ++ ']' :: rest =
            serialize v ++ ',' :: (serItems (w :: ws) ++ ']' :: rest) := by
          simp [serItems]
        have hp := ihP v (',' :: (serItems (w :: ws) ++ ']' :: rest)) hfv
          (digitFree_cons (by decide) _)
        rw [harr, parseItems.eq_def]
        simp [hp, ihQ w ws rest hfw]
    · intro k jv fs rest hfuel
      cases fs with
      | nil =>
        have hfv : jsonFuel jv ≤ f := by
          simp only [fieldsFuel] at hfuel
          omega
        have hobj : serObj [(k, jv)] ++ '}' :: rest =
            '"' :: (escapeList k.data ++ '"' :: (':' :: (serialize jv ++ '}' :: rest))) := by
          simp [serObj, strChars]
        have hp := ihP jv ('}' :: rest) hfv (digitFree_cons (by decide) rest)
        rw [hobj, parseFields.eq_def]
        simp [parseStringBody_escape k.data (':' :: (serialize jv ++ '}' :: rest)), hp,
          stringMk_data]
      | cons g gs =>
        obtain ⟨k2, jv2⟩ := g
        have hfv : jsonFuel jv ≤ f := by
          simp only [fieldsFuel] at hfuel
          omega
        have hfg : fieldsFuel ((k2, jv2) :: gs) ≤ f := by
          simp only [fieldsFuel] at hfuel ⊢
          omega
        have hobj : serObj ((k, jv) :: (k2, jv2) :: gs) ++ '}' :: rest =
            '"' :: (escapeList k.data ++ '"' :: (':' ::
              (serialize jv ++ ',' :: (serObj ((k2, jv2) :: gs) ++ '}' :: rest)))) := by
          simp [serObj, strChars]
        have hp := ihP jv (',' :: (serObj ((k2, jv2) :: gs) ++ '}' :: rest)) hfv
          (digitFree_cons (by decide) _)
        rw [hobj, parseFields.eq_def]
        simp [parseStringBody_escape k.data _, hp, ihR k2 jv2 gs rest hfg, stringMk_data]

theorem jsonParse_serialize (v : Json) : jsonParse (serialize v) = some v := by
  have h := (parse_adequate ((serialize v).length + 1)).1 v []
    (le_trans (jsonFuel_le v) (by omega)) digitFree_nil
  simp only [List.append_nil] at h
  simp [jsonParse, h]

/-- Every runtime `AgentEvent` is a JSON object. -/
theorem jsonOfEvent_is_obj (e : AgentEvent) : ∃ fields, jsonOfEvent e = Json.obj fields := by
  cases e <;> exact ⟨_, rfl⟩

theorem jsTrim_wrap (body : List Char)
    (hhead : ∀ c, body.head? = some c → isJsWs c = false)
    (hlast : ∀ c, body.reverse.head? = some c → isJsWs c = false)
    (hne : body ≠ []) :
    jsTrim (String.mk ("data: ".data ++ body ++ ['\n', '\n'])) =
      String.mk ("data: ".data ++ body) := by
  rcases hb : body with _ | ⟨c, t⟩
  · exact absurd hb hne
  rcases hr : body.reverse with _ | ⟨c2, t2⟩
  · exact absurd (by simpa using congrArg List.reverse hr) hne
  have hc : isJsWs c = false := hhead c (by rw [hb]; rfl)
  have hc2 : isJsWs c2 = false := hlast c2 (by rw [hr]; rfl)
  unfold jsTrim
  congr 1
  show (List.dropWhile isJsWs
    (List.dropWhile isJsWs ("data: ".data ++ (c :: t) ++ ['\n', '\n'])).reverse).reverse =
    "data: ".data ++ (c :: t)
  have hdrop1 : ("data: ".data ++ (c :: t) ++ ['\n', '\n']).dropWhile isJsWs =
      "data: ".data ++ (c :: t) ++ ['\n', '\n'] := by
    simp [List.dropWhile, isJsWs]
  rw [hdrop1]
  have hrev : ("data: ".data ++ (c :: t) ++ ['\n', '\n']).reverse =
      '\n' :: '\n' :: ((c :: t).reverse ++ "data: ".data.reverse) := by
    simp
  rw [hrev]
  have hdrop2 : ('\n' :: '\n' :: ((c :: t).reverse ++ "data: ".data.reverse)).dropWhile
      isJsWs = (c :: t).reverse ++ "data: ".data.reverse := by
    rw [List.dropWhile_cons_of_pos (by decide), List.dropWhile_cons_of_pos (by decide)]
    rw [← hb, hr]
    simp [List.dropWhile_cons, hc2]
  rw [hdrop2]
  simp

/-- C5 (round-trip law): decoding the trimmed encoding of any
`AgentEvent` succeeds and returns exactly the event's JSON object (the
structural equality JavaScript's deep-equal checks). -/
theorem decode_trim_encode (e : AgentEvent) :
    decodeEvent (jsTrim (encodeEvent e)) = .ok (some (jsonOfEvent e)) := by
  obtain ⟨fields, hobj⟩ := jsonOfEvent_is_obj e
  have hser : serialize (jsonOfEvent e) = '{' :: (serObj fields ++ ['}']) := by
    rw [hobj]
    rfl
  have hne : serialize (jsonOfEvent e) ≠ [] := by
    rw [hser]
    simp
  have hhead : ∀ c, (serialize (jsonOfEvent e)).head? = some c → isJsWs c = false := by
    intro c hc
    rw [hser] at hc
    simp at hc
    subst hc
    decide
  have hlast : ∀ c, (serialize (jsonOfEvent e)).reverse.head? = some c → isJsWs c = false := by
    intro c hc
    rw [hser] at hc
    simp at hc
    subst hc
    decide
  have htrim := jsTrim_wrap (serialize (jsonOfEvent e)) hhead hlast hne
  unfold encodeEvent
  rw [htrim]
  have hlen : ("data: ".data).length = 6 := rfl
  have htake : ("data: ".data ++ serialize (jsonOfEvent e)).take 6 = "data: ".data := by
    rw [← hlen]
    exact List.take_left _ _
  have hdropped : ("data: ".data ++ serialize (jsonOfEvent e)).drop 6 =
      serialize (jsonOfEvent e) := by
    rw [← hlen]
    exact List.drop_left _ _
  have hnd : serialize (jsonOfEvent e) ≠ "[DONE]".data := by
    rw [hser]
    intro hcontra
    have : '{' = '[' := (List.cons.inj hcontra).1
    exact absurd this (by decide)
  simp only [decodeEvent]
  simp [htake, hdropped, hnd, jsonParse_serialize]

/-! ## Client state and UI converter (packages/core/src/convert.ts) -/

/-- The `ToolCallInfo` of the client state: `inputText` accumulates partial
JSON text, `input` is the finalized decoded map, `result` any value. -/
structure ToolCallInfo where
  toolCallId : String
  toolName : String
  inputText : String
  input : Option (List (String × Json))
  result : Option Json
  isError : Option Bool

/-- The `AgentMessage` of the client state; the `role` field is constantly
`"assistant"` and `toolCalls` lists the insertion-ordered map values. -/
structure AgentMessage where
  parentToolUseId : Option String
  currentText : String
  currentThinking : String
  toolCalls : List ToolCallInfo

/-- The `AgentState` of the client reducer. -/
structure AgentState where
  sessionId : Option String
  isRunning : Bool
  messages : List AgentMessage
  pendingPermissions : List (String × Json)
  pendingQuestions : List String
  result : Option String
  error : Option String

/-- A part of a converted UI message. -/
inductive MessagePart where
  | text (text : String)
  | reasoning (text : String)
  | toolCall (toolCallId : String) (toolName : String)
      (args : Option (List (String × Json))) (argsText : Option String)
      (result : Option Json) (isError : Option Bool)

/-- Message status of a converted UI message. -/
inductive MessageStatus where
  | running : MessageStatus
  | complete : MessageStatus
deriving DecidableEq

/-- A converted UI message; `metadata` holds the `parentToolUseId`
carried in the `metadata.custom` envelope, `none` when absent. -/
structure ConvertedMessage where
  content : List MessagePart
  status : MessageStatus
  metadata : Option String

/-- Model of `convertToolCall`: `args`/`argsText` from the finalized
input when present (JS object truthiness holds for every object), else
`argsText` from a nonempty `inputText`; `result` kept when defined;
`isError` kept when truthy. -/
def convertToolCall (tc : ToolCallInfo) : MessagePart :=
  let argsText : Option String :=
    match tc.input with
    | some input => some (String.mk (serialize (.obj input)))
    | none => if tc.inputText ≠ "" then some tc.inputText else none
  .toolCall tc.toolCallId tc.toolName tc.input argsText tc.result
    (if tc.isError = some true then some true else none)

/-- The parts list `convertMessage` builds: reasoning from a nonempty
`currentThinking`, text from a nonempty `currentText`, then the tool
calls in insertion order. -/
def messageParts (msg : AgentMessage) : List MessagePart :=
  (if msg.currentThinking ≠ "" then [.reasoning msg.currentThinking] else []) ++
  (if msg.currentText ≠ "" then [.text msg.currentText] else []) ++
  msg.toolCalls.map convertToolCall

/-- Model of `convertMessage`: `none` when the parts list is empty;
status `running` exactly when this is the last message and the state is
running. -/
def convertMessage (msg : AgentMessage) (isLast : Bool) (isRunning : Bool) :
    Option ConvertedMessage :=
  let parts := messageParts msg
  if parts.isEmpty then none
  else some
    { content := parts
      status := if isLast && isRunning then .running else .complete
      metadata :=
        match msg.parentToolUseId with
        | some p => if p ≠ "" then some p else none
        | none => none }

/-- Model of `convertMessages`: convert each message with `isLast` true
exactly at the final index of the original list, dropping `none`s. -/
def convertMessages (state : AgentState) : List ConvertedMessage :=
  let lastIndex := state.messages.length - 1
  state.messages.enum.filterMap
    (fun p => convertMessage p.2 (decide (p.1 = lastIndex)) state.isRunning)

theorem enumFrom_append_singleton (ms : List AgentMessage) (m : AgentMessage) (k : Nat) :
    (ms ++ [m]).enumFrom k = ms.enumFrom k ++ [(k + ms.length, m)] := by
  induction ms generalizing k with
  | nil => simp
  | cons a t ih =>
    simp only [List.cons_append, List.enumFrom_cons, ih (k + 1), List.length_cons]
    have harith : k + 1 + t.length = k + (t.length + 1) := by omega
    rw [harith]

theorem convertMessage_false_status {msg : AgentMessage} {r : Bool} {cm : ConvertedMessage}
    (h : convertMessage msg false r = some cm) : cm.status = .complete := by
  unfold convertMessage at h
  by_cases hp : (messageParts msg).isEmpty
  · simp [hp] at h
  · simp [hp] at h
    rw [← h]

theorem filterMap_enumFrom_lt (ms : List AgentMessage) (k L : Nat) (r : Bool)
    (h : k + ms.length ≤ L) :
    (ms.enumFrom k).filterMap (fun p => convertMessage p.2 (decide (p.1 = L)) r) =
      ms.filterMap (fun m => convertMessage m false r) := by
  induction ms generalizing k with
  | nil => simp
  | cons a t ih =>
    have hk : k ≠ L := by
      simp only [List.length_cons] at h
      omega
    simp only [List.enumFrom_cons, List.filterMap_cons, decide_eq_false hk]
    rw [ih (k + 1) (by simp only [List.length_cons] at h; omega)]

/-- C1 (amended): when the final message of the state converts to an
empty parts list, `convertMessages` drops it, the output is the
conversion of the remaining prefix with `isLast` false everywhere, and
every surviving message has status `complete` — even the last surviving
one while `isRunning`, because the `running` status is tied to the final
index of the original list, which was dropped. -/
theorem convertMessages_empty_last (st : AgentState) (ms : List AgentMessage)
    (m : AgentMessage) (hms : st.messages = ms ++ [m])
    (hempty : messageParts m = []) :
    convertMessages st = ms.filterMap (fun msg => convertMessage msg false st.isRunning) ∧
    ∀ cm ∈ convertMessages st, cm.status = .complete := by
  have hmain : convertMessages st =
      ms.filterMap (fun msg => convertMessage msg false st.isRunning) := by
    unfold convertMessages
    rw [hms]
    have hL : (ms ++ [m]).length - 1 = ms.length := by simp
    rw [hL]
    have henum : (ms ++ [m]).enum = ms.enumFrom 0 ++ [(ms.length, m)] := by
      have := enumFrom_append_singleton ms m 0
      simpa [List.enum] using this
    rw [henum, List.filterMap_append]
    have hlastnone : List.filterMap
        (fun p => convertMessage p.2 (decide (p.1 = ms.length)) st.isRunning)
        [(ms.length, m)] = [] := by
      simp [convertMessage, hempty]
    rw [hlastnone, List.append_nil]
    exact filterMap_enumFrom_lt ms 0 ms.length st.isRunning (by omega)
  refine ⟨hmain, ?_⟩
  intro cm hcm
  rw [hmain] at hcm
  obtain ⟨msg, _, hconv⟩ := List.mem_filterMap.mp hcm
  exact convertMessage_false_status hconv

/-- A message with text content, used in the C1 scenario. -/
def exMsgText : AgentMessage :=
  { parentToolUseId := none, currentText := "hi", currentThinking := "", toolCalls := [] }

/-- A message converting to an empty parts list. -/
def exMsgEmpty : AgentMessage :=
  { parentToolUseId := none, currentText := "", currentThinking := "", toolCalls := [] }

/-- A running state whose messages list ends with an empty message. -/
def exStateC1 : AgentState :=
  { sessionId := some "s1", isRunning := true, messages := [exMsgText, exMsgEmpty],
    pendingPermissions := [], pendingQuestions := [], result := none, error := none }

/-- C1 counterexample: in a running state ending with a message whose
parts list is empty, the dropped message leaves one surviving converted
message, and its status is `complete`, not the `running` the claim
assigns to the last surviving message. -/
theorem convertMessages_empty_last_cex :
    exStateC1.isRunning = true ∧ messageParts exMsgEmpty = [] ∧
    (convertMessages exStateC1).map ConvertedMessage.status = [MessageStatus.complete] ∧
    (convertMessages exStateC1).map ConvertedMessage.status ≠ [MessageStatus.running] := by
  refine ⟨rfl, rfl, rfl, ?_⟩
  intro h
  have : MessageStatus.complete = MessageStatus.running := by
    have h2 : ([MessageStatus.complete] : List MessageStatus) = [MessageStatus.running] := by
      rw [show ([MessageStatus.complete] : List MessageStatus) =
        (convertMessages exStateC1).map ConvertedMessage.status from rfl]
      exact h
    exact (List.cons.inj h2).1
  exact absurd this (by decide)

/-- C1 witness: the amended theorem applied to the concrete state. -/
theorem convertMessages_empty_last_witness :
    exStateC1.messages = [exMsgText] ++ [exMsgEmpty] ∧
    messageParts exMsgEmpty = [] ∧
    (convertMessages exStateC1 =
      [exMsgText].filterMap (fun msg => convertMessage msg false exStateC1.isRunning) ∧
    ∀ cm ∈ convertMessages exStateC1, cm.status = .complete) :=
  ⟨rfl, rfl, convertMessages_empty_last exStateC1 [exMsgText] exMsgEmpty rfl rfl⟩

/-! ## Stream translator (packages/claude/src/translator.ts)

Engine messages are dynamic maps in the source; the embedding decodes
them into a tagged variant at the translator's edge, with an `other`
constructor for every shape the source ignores (unknown discriminators
and missing or non-string fields produce no events). -/

/-- The `delta` field of a `content_block_delta` stream event. -/
inductive Delta where
  | textDelta (text : String)
  | thinkingDelta (thinking : String)
  | inputJsonDelta (partialJson : String)
  | otherDelta

/-- The `content_block` field of a `content_block_start` stream event:
`toolUseStart` covers both `tool_use` and `server_tool_use` blocks. -/
inductive StartBlock where
  | toolUseStart (id name : String)
  | otherStart

/-- The inner `event` of a `stream_event` message. -/
inductive StreamEvent where
  | messageStart
  | contentBlockStart (block : StartBlock)
  | contentBlockDelta (delta : Delta)
  | otherStreamEvent

/-- A block of an `assistant` message's content array; `toolUse` covers
both `tool_use` and `server_tool_use` (treated identically), with
`input` absent modelled as `none`. -/
inductive ContentBlock where
  | thinking (thinking : String)
  | toolUse (id name : String) (input : Option (List (String × Json)))
  | otherBlock

/-- A block of a `user` message's content array; `content` is the
`tool_result` block's `content` field (`none` when absent). -/
inductive UserBlock where
  | toolResult (toolUseId : String) (content : Option Json)
  | otherUserBlock

/-- An engine (SDK) message as the translator's switch discriminates it. -/
inductive SDKMessage where
  | streamEvent (event : StreamEvent)
  | assistant (content : List ContentBlock)
  | user (content : List UserBlock)
  | system (subtype : String) (sessionId : Option String)
  | result (subtype : Option String)
  | otherMessage

/-- The mutable state of a `StreamTranslator`: the insertion-ordered
`toolNames` map and the `hadStreamThinking` flag. -/
structure StreamTranslator where
  toolNames : List (String × String)
  hadStreamThinking : Bool

/-- A fresh translator. -/
def StreamTranslator.init : StreamTranslator :=
  { toolNames := [], hadStreamThinking := false }

/-- Model of `Map.set`: update in place when the key exists (keeping
its insertion position), else append. -/
def mapSet (m : List (String × String)) (k v : String) : List (String × String) :=
  if m.any (fun p => p.1 = k) then m.map (fun p => if p.1 = k then (k, v) else p)
  else m ++ [(k, v)]

/-- Model of `lastToolId`: the key of the most recently inserted tool, if any. -/
def lastToolId (m : List (String × String)) : Option String :=
  (m.getLast?).map Prod.fst

/-- The text of an array sub-block when its `type` field is `"text"`
and its `text` field is a string (the source's filter predicate and map
in one step; a non-object sub-block has neither field). -/
def textBlockText (p : Json) : Option String :=
  match p with
  | .obj fields =>
    match fields.lookup "type", fields.lookup "text" with
    | some (.str "text"), some (.str t) => some t
    | _, _ => none
  | _ => none

/-- Model of `extractToolResultText` over the `content` field of a
`tool_result` block: the string itself, else the joined texts of
text-typed sub-blocks of an array (the JSON serialization of the array
when there are none), else the empty string. -/
def extractToolResultText (content : Option Json) : String :=
  match content with
  | some (.str s) => s
  | some (.arr items) =>
    let textParts := items.filterMap textBlockText
    if textParts.length > 0 then String.join textParts
    else String.mk (serialize (.arr items))
  | _ => ""

/-- Model of `translateStreamEvent`: the cases of the inner `event.type` switch. -/
def translateStreamEvent (st : StreamTranslator) (event : StreamEvent) :
    StreamTranslator × List AgentEvent :=
  match event with
  | .messageStart =>
    ({ st with hadStreamThinking := false }, [.messageStart none])
  | .contentBlockStart block =>
    match block with
    | .toolUseStart id name =>
      ({ st with toolNames := mapSet st.toolNames id name }, [.toolStart id name])
    | .otherStart => (st, [])
  | .contentBlockDelta delta =>
    match delta with
    | .textDelta t => (st, [.textDelta t])
    | .thinkingDelta t =>
      ({ st with hadStreamThinking := true }, [.thinkingDelta t])
    | .inputJsonDelta t =>
      match lastToolId st.toolNames with
      | some id => (st, [.toolInputDelta id t])
      | none => (st, [])
    | .otherDelta => (st, [])
  | .otherStreamEvent => (st, [])

/-- Model of `translateAssistantMessage`: fold over the content blocks, gating a
`thinking` block on `hadStreamThinking` being false. -/
def translateAssistantMessage (st : StreamTranslator) :
    List ContentBlock → StreamTranslator × List AgentEvent
  | [] => (st, [])
  | block :: blocks =>
    let (st1, evs1) :=
      match block with
      | .thinking t =>
        if !st.hadStreamThinking then (st, [AgentEvent.thinkingDelta t]) else (st, [])
      | .toolUse id name input =>
        ({ st with toolNames := mapSet st.toolNames id name },
          [AgentEvent.toolCall id name (input.getD [])])
      | .otherBlock => (st, [])
    let (st2, evs2) := translateAssistantMessage st1 blocks
    (st2, evs1 ++ evs2)

/-- Model of `translateUserMessage`: a `tool_result` event per `tool_result`
block. -/
def translateUserMessage (content : List UserBlock) : List AgentEvent :=
  content.filterMap (fun block =>
    match block with
    | .toolResult toolUseId c =>
      some (.toolResult toolUseId (.str (extractToolResultText c)) none)
    | .otherUserBlock => none)

/-- Model of `StreamTranslator.translate`: one engine message in, a new
state and zero or more events out. -/
def StreamTranslator.translate (st : StreamTranslator) (message : SDKMessage) :
    StreamTranslator × List AgentEvent :=
  match message with
  | .streamEvent event => translateStreamEvent st event
  | .assistant content => translateAssistantMessage st content
  | .user content => (st, translateUserMessage content)
  | .system subtype sessionId =>
    match sessionId with
    | some sid => if subtype = "init" then (st, [.sessionInit sid]) else (st, [])
    | none => (st, [])
  | .result subtype =>
    if subtype = some "success" then (st, [.result none])
    else (st, [.error (subtype.getD "unknown_error")])
  | .otherMessage => (st, [])

/-- Run the translator over a list of messages, returning the final
state (the driver pushes each message's events in order). -/
def runTranslatorState (st : StreamTranslator) (ms : List SDKMessage) : StreamTranslator :=
  ms.foldl (fun s m => (s.translate m).1) st

/-- Whether an engine message is a `stream_event`/`message_start`. -/
def isMessageStartMsg : SDKMessage → Bool
  | .streamEvent .messageStart => true
  | _ => false

/-- Whether an engine message is a `stream_event` carrying a
`thinking_delta` (each such message makes the translator emit one
`thinking_delta` event). -/
def isStreamThinkingMsg : SDKMessage → Bool
  | .streamEvent (.contentBlockDelta (.thinkingDelta _)) => true
  | _ => false

/-- Whether an agent event is a `thinking_delta`. -/
def isThinkingDeltaEvent : AgentEvent → Bool
  | .thinkingDelta _ => true
  | _ => false

/-- Specification-side predicate: some `thinking_delta` stream event
occurred since the most recent `stream_event`/`message_start` (or since
the beginning when no `message_start` occurred). -/
def thinkingSinceLastStart (ms : List SDKMessage) : Bool :=
  (ms.reverse.takeWhile (fun m => !isMessageStartMsg m)).any isStreamThinkingMsg

/-- One step of the effect a message has on the thinking flag: `some b`
forces the flag to `b`, `none` leaves it. -/
def thinkingStep (acc : Option Bool) (m : SDKMessage) : Option Bool :=
  if isMessageStartMsg m then some false
  else if isStreamThinkingMsg m then some true
  else acc

/-- Net effect of a message list on the thinking flag. -/
def thinkingEffect (ms : List SDKMessage) : Option Bool :=
  ms.foldl thinkingStep none

theorem thinkingStep_getD (a : Option Bool) (d : Bool) (m : SDKMessage) :
    (thinkingStep a m).getD d = (thinkingStep none m).getD (a.getD d) := by
  unfold thinkingStep
  by_cases h1 : isMessageStartMsg m
  · simp [h1]
  · by_cases h2 : isStreamThinkingMsg m
    · simp [h1, h2]
    · simp [h1, h2]

theorem foldl_thinkingStep_getD (t : List SDKMessage) :
    ∀ (a : Option Bool) (d : Bool),
      (t.foldl thinkingStep a).getD d = (t.foldl thinkingStep none).getD (a.getD d) := by
  induction t with
  | nil => intro a d; rfl
  | cons m t ih =>
    intro a d
    simp only [List.foldl_cons]
    rw [ih (thinkingStep a m) d, ih (thinkingStep none m) (a.getD d), thinkingStep_getD]

theorem translateAssistantMessage_hadStreamThinking (st : StreamTranslator)
    (blocks : List ContentBlock) :
    (translateAssistantMessage st blocks).1.hadStreamThinking = st.hadStreamThinking := by
  induction blocks generalizing st with
  | nil => rfl
  | cons b bs ih =>
    cases b with
    | thinking t =>
      by_cases h : st.hadStreamThinking <;>
        simp [translateAssistantMessage, h, ih]
    | toolUse id name input => simp [translateAssistantMessage, ih]
    | otherBlock => simp [translateAssistantMessage, ih]

theorem translate_hadStreamThinking (st : StreamTranslator) (m : SDKMessage) :
    (st.translate m).1.hadStreamThinking =
      (thinkingStep none m).getD st.hadStreamThinking := by
  cases m with
  | streamEvent e =>
    cases e with
    | messageStart => rfl
    | contentBlockStart b =>
      cases b <;> rfl
    | contentBlockDelta d =>
      cases d with
      | textDelta t => rfl
      | thinkingDelta t => rfl
      | inputJsonDelta t =>
        unfold StreamTranslator.translate translateStreamEvent
        cases lastToolId st.toolNames <;> rfl
      | otherDelta => rfl
    | otherStreamEvent => rfl
  | assistant content =>
    simpa [StreamTranslator.translate, thinkingStep, isMessageStartMsg, isStreamThinkingMsg]
      using translateAssistantMessage_hadStreamThinking st content
  | user content => rfl
  | system subtype sessionId =>
    unfold StreamTranslator.translate
    cases sessionId with
    | none => rfl
    | some sid => by_cases h : subtype = "init" <;> simp [h, thinkingStep,
        isMessageStartMsg, isStreamThinkingMsg]
  | result subtype =>
    unfold StreamTranslator.translate
    by_cases h : subtype = some "success" <;> simp [h, thinkingStep,
      isMessageStartMsg, isStreamThinkingMsg]
  | otherMessage => rfl

/-- The translator's `hadStreamThinking` flag after a run equals the net
effect of the processed messages. -/
theorem runTranslatorState_hadStreamThinking (ms : List SDKMessage) :
    ∀ st : StreamTranslator, (runTranslatorState st ms).hadStreamThinking =
      (thinkingEffect ms).getD st.hadStreamThinking := by
  induction ms with
  | nil => intro st; rfl
  | cons m t ih =>
    intro st
    unfold runTranslatorState thinkingEffect at *
    simp only [List.foldl_cons]
    rw [ih (st.translate m).1, foldl_thinkingStep_getD t (thinkingStep none m),
      translate_hadStreamThinking]

/-- The reverse/takeWhile formulation agrees with the fold. -/
theorem thinkingSinceLastStart_effect (ms : List SDKMessage) :
    thinkingSinceLastStart ms = (thinkingEffect ms).getD false := by
  induction ms using List.reverseRecOn with
  | nil => rfl
  | append_singleton ms m ih =>
    unfold thinkingSinceLastStart thinkingEffect at *
    rw [List.foldl_append]
    simp only [List.reverse_append, List.reverse_singleton, List.singleton_append,
      List.takeWhile_cons]
    by_cases h1 : isMessageStartMsg m
    · simp [h1, thinkingStep]
    · by_cases h2 : isStreamThinkingMsg m
      · simp [h1, h2, thinkingStep]
      · simp only [h1, Bool.not_false, if_true, List.any_cons, h2, Bool.false_or]
        rw [ih]
        rw [foldl_thinkingStep_getD [m] (List.foldl thinkingStep none ms) false]
        simp [thinkingStep, h1, h2]

/-- With the flag set, an assistant message emits no `thinking_delta`. -/
theorem translateAssistantMessage_no_thinking (st : StreamTranslator)
    (h : st.hadStreamThinking = true) (blocks : List ContentBlock) :
    ∀ e ∈ (translateAssistantMessage st blocks).2, isThinkingDeltaEvent e = false := by
  induction blocks generalizing st with
  | nil => intro e he; simp [translateAssistantMessage] at he
  | cons b bs ih =>
    intro e he
    cases b with
    | thinking t =>
      simp only [translateAssistantMessage, h, Bool.not_true, Bool.false_eq_true,
        if_false, List.nil_append] at he
      exact ih st h e he
    | toolUse id name input =>
      simp only [translateAssistantMessage] at he
      simp only [List.cons_append, List.nil_append, List.mem_cons] at he
      rcases he with rfl | he
      · rfl
      · exact ih _ (by simpa using h) e he
    | otherBlock =>
      simp only [translateAssistantMessage, List.nil_append] at he
      exact ih st h e he

/-- C4: if a `thinking_delta` was emitted from stream events since the
most recent `message_start`, a subsequent assistant message emits no
`thinking_delta` at all; and after a fresh `message_start` the
suppression is cleared, so an assistant `thinking` block emits again. -/
theorem translator_thinking_dedup :
    (∀ ms blocks, thinkingSinceLastStart ms = true →
      ∀ e ∈ ((runTranslatorState .init ms).translate (.assistant blocks)).2,
        isThinkingDeltaEvent e = false) ∧
    (∀ ms s, ((runTranslatorState .init (ms ++ [.streamEvent .messageStart])).translate
        (.assistant [.thinking s])).2 = [.thinkingDelta s]) := by
  constructor
  · intro ms blocks hsince e he
    have hflag : (runTranslatorState .init ms).hadStreamThinking = true := by
      rw [runTranslatorState_hadStreamThinking ms .init]
      rw [thinkingSinceLastStart_effect] at hsince
      simpa [StreamTranslator.init] using hsince
    exact translateAssistantMessage_no_thinking _ hflag blocks e he
  · intro ms s
    have hflag :
        (runTranslatorState StreamTranslator.init
          (ms ++ [SDKMessage.streamEvent StreamEvent.messageStart])).hadStreamThinking =
          false := by
      rw [runTranslatorState_hadStreamThinking
        (ms ++ [SDKMessage.streamEvent StreamEvent.messageStart]) StreamTranslator.init]
      unfold thinkingEffect
      rw [List.foldl_append]
      simp [thinkingStep, isMessageStartMsg]
    simp [StreamTranslator.translate, translateAssistantMessage, hflag]

/-- C4 witness: a concrete run — a streamed thinking delta suppresses
the assistant thinking block that follows. -/
theorem translator_thinking_dedup_witness :
    thinkingSinceLastStart [.streamEvent (.contentBlockDelta (.thinkingDelta "a"))] = true ∧
    ∀ e ∈ ((runTranslatorState .init
        [.streamEvent (.contentBlockDelta (.thinkingDelta "a"))]).translate
        (.assistant [.thinking "a"])).2, isThinkingDeltaEvent e = false :=
  ⟨rfl, translator_thinking_dedup.1
    [.streamEvent (.contentBlockDelta (.thinkingDelta "a"))] [.thinking "a"] rfl⟩

/-- Specification-side formulation of the text sub-blocks: filter the
text-typed sub-blocks carrying a string, then take their texts, as the
spec words it. -/
def textSubBlocks (items : List Json) : List String :=
  (items.filter (fun p => (textBlockText p).isSome)).map
    (fun p => (textBlockText p).getD "")

theorem filterMap_textBlockText (items : List Json) :
    items.filterMap textBlockText = textSubBlocks items := by
  induction items with
  | nil => rfl
  | cons p ps ih =>
    unfold textSubBlocks at *
    rcases hp : textBlockText p with _ | t
    · simp [List.filterMap_cons, List.filter_cons, hp, ih]
    · simp [List.filterMap_cons, List.filter_cons, hp, ih]

/-- C8: `extractToolResultText` returns the content string itself; for
an array, the concatenation of the `text` fields of its text-typed
sub-blocks when any exist and the JSON serialization of the array
otherwise; and the empty string for every other content. -/
theorem extractToolResultText_spec :
    (∀ s, extractToolResultText (some (.str s)) = s) ∧
    (∀ items, extractToolResultText (some (.arr items)) =
      if textSubBlocks items = [] then String.mk (serialize (.arr items))
      else String.join (textSubBlocks items)) ∧
    extractToolResultText none = "" ∧
    extractToolResultText (some .null) = "" ∧
    (∀ b, extractToolResultText (some (.bool b)) = "") ∧
    (∀ n, extractToolResultText (some (.num n)) = "") ∧
    (∀ fields, extractToolResultText (some (.obj fields)) = "") := by
  refine ⟨fun s => rfl, ?_, rfl, rfl, fun b => rfl, fun n => rfl, fun fields => rfl⟩
  intro items
  have hdef : extractToolResultText (some (.arr items)) =
      (if (items.filterMap textBlockText).length > 0 then
        String.join (items.filterMap textBlockText)
      else String.mk (serialize (.arr items))) := rfl
  rw [hdef, filterMap_textBlockText]
  by_cases h : textSubBlocks items = []
  · simp [h]
  · have : 0 < (textSubBlocks items).length := List.length_pos.mpr h
    simp [h, this]

/-! ## Permission gate (packages/claude/src/permission-gate.ts)

The deferred promises are modelled by returning the value each deferred
is resolved with alongside the state transition: `resolve` returns the
`PermissionResult` delivered to the pending request's future, and
`answerQuestion` the answer string delivered to the question's future.
A thrown `Error` is `Except.error` with the source's message, leaving
the state unchanged and emitting nothing (the source throws before any
mutation).  `Map.delete` is modelled by filtering the key out (map keys
are unique, so this removes exactly the entry). -/

/-- The result shape the engine's tool-gate callback receives. -/
inductive PermissionResult where
  | allow (updatedInput : List (String × Json))
  | deny (message : String)

/-- Gate state: the monotonic id counter and both pending registries
(`pendingPermissions` keeps each request's original input; a pending
question carries nothing beyond its deferred, hence just the id). -/
structure PermissionGate where
  nextId : Nat
  pendingPermissions : List (String × List (String × Json))
  pendingQuestions : List String

/-- Model of `request`: allocate `perm_<n>` with the pre-incremented
counter, store the entry, and emit `permission_request` with the
optional context fields omitted when absent. -/
def PermissionGate.request (g : PermissionGate) (toolName : String)
    (input : List (String × Json)) (context : Option (Option String × Option String)) :
    PermissionGate × String × AgentEvent :=
  let id := "perm_" ++ toString (g.nextId + 1)
  ({ g with
      nextId := g.nextId + 1
      pendingPermissions := g.pendingPermissions ++ [(id, input)] },
    id,
    .permissionRequest id toolName input (context.bind Prod.fst) (context.bind Prod.snd))

/-- Model of `resolve`: unknown id throws; otherwise remove the entry,
emit `permission_resolved`, and resolve the deferred with the allow
result carrying `updatedInput ?? original input` or the deny result
carrying `"User denied"`. -/
def PermissionGate.resolve (g : PermissionGate) (id : String) (behavior : Behavior)
    (updatedInput : Option (List (String × Json))) :
    PermissionGate × List AgentEvent × Except String PermissionResult :=
  match g.pendingPermissions.lookup id with
  | none => (g, [], .error ("No pending permission with id: " ++ id))
  | some input =>
    ({ g with pendingPermissions := g.pendingPermissions.filter (fun p => !(p.1 == id)) },
      [.permissionResolved id behavior],
      .ok (match behavior with
        | .allow => .allow (updatedInput.getD input)
        | .deny => .deny "User denied"))

/-- Model of `askQuestion`: allocate `question_<n>`, store the deferred,
emit `user_question`. -/
def PermissionGate.askQuestion (g : PermissionGate) (question : String)
    (options : List (String × String)) : PermissionGate × String × AgentEvent :=
  let id := "question_" ++ toString (g.nextId + 1)
  ({ g with
      nextId := g.nextId + 1
      pendingQuestions := g.pendingQuestions ++ [id] },
    id, .userQuestion id question options)

/-- Model of `answerQuestion`: unknown id throws; otherwise remove the
entry, emit `user_question_answered`, resolve the deferred with the
answer. -/
def PermissionGate.answerQuestion (g : PermissionGate) (id answer : String) :
    PermissionGate × List AgentEvent × Except String String :=
  if g.pendingQuestions.contains id then
    ({ g with pendingQuestions := g.pendingQuestions.filter (fun q => !(q == id)) },
      [.userQuestionAnswered id answer], .ok answer)
  else (g, [], .error ("No pending question with id: " ++ id))

theorem lookup_filter_ne {β : Type} (l : List (String × β)) (id : String) :
    (l.filter (fun p => !(p.1 == id))).lookup id = none := by
  induction l with
  | nil => rfl
  | cons p ps ih =>
    by_cases h : p.1 = id
    · simp [List.filter_cons, h, ih]
    · simp only [List.filter_cons]
      rw [show (!(p.1 == id)) = true by simp [h]]
      simp only [if_true]
      rw [List.lookup_cons]
      simp [show (id == p.1) = false by simp [Ne.symm h], ih]

theorem resolve_pending_deny (g : PermissionGate) (id : String)
    (input : List (String × Json))
    (h : g.pendingPermissions.lookup id = some input) (uOpt : Option (List (String × Json))) :
    g.resolve id .deny uOpt =
      ({ g with pendingPermissions := g.pendingPermissions.filter (fun p => !(p.1 == id)) },
        [.permissionResolved id .deny], .ok (.deny "User denied")) := by
  unfold PermissionGate.resolve
  rw [h]

/-- C6: resolving a pending permission (original input `I`) removes the
entry, emits `permission_resolved {id, behavior}`, and resolves the
request's future with `{allow, updatedInput: u ?? I}` or
`{deny, "User denied"}`; the question registry is untouched. -/
theorem permissionGate_resolve_correct (g : PermissionGate) (id : String)
    (input : List (String × Json))
    (h : g.pendingPermissions.lookup id = some input) :
    (∀ uOpt, g.resolve id .allow uOpt =
      ({ g with pendingPermissions := g.pendingPermissions.filter (fun p => !(p.1 == id)) },
        [.permissionResolved id .allow], .ok (.allow (uOpt.getD input)))) ∧
    (∀ uOpt, g.resolve id .deny uOpt =
      ({ g with pendingPermissions := g.pendingPermissions.filter (fun p => !(p.1 == id)) },
        [.permissionResolved id .deny], .ok (.deny "User denied"))) ∧
    (∀ b uOpt, (g.resolve id b uOpt).1.pendingPermissions.lookup id = none ∧
      (g.resolve id b uOpt).1.pendingQuestions = g.pendingQuestions) := by
  refine ⟨?_, ?_, ?_⟩
  · intro uOpt
    unfold PermissionGate.resolve
    rw [h]
  · exact resolve_pending_deny g id input h
  · intro b uOpt
    unfold PermissionGate.resolve
    rw [h]
    exact ⟨lookup_filter_ne g.pendingPermissions id, rfl⟩

/-- A concrete gate with one pending permission, for the C6 witness. -/
def exGateC6 : PermissionGate :=
  { nextId := 1, pendingPermissions := [("perm_1", [("command", .str "ls")])],
    pendingQuestions := [] }

/-- C6 witness: the theorem applied to the concrete gate. -/
theorem permissionGate_resolve_correct_witness :
    exGateC6.pendingPermissions.lookup "perm_1" = some [("command", .str "ls")] ∧
    ((∀ uOpt, exGateC6.resolve "perm_1" .allow uOpt =
      ({ exGateC6 with pendingPermissions :=
          exGateC6.pendingPermissions.filter (fun p => !(p.1 == "perm_1")) },
        [.permissionResolved "perm_1" .allow],
        .ok (.allow (uOpt.getD [("command", .str "ls")])))) ∧
    (∀ uOpt, exGateC6.resolve "perm_1" .deny uOpt =
      ({ exGateC6 with pendingPermissions :=
          exGateC6.pendingPermissions.filter (fun p => !(p.1 == "perm_1")) },
        [.permissionResolved "perm_1" .deny], .ok (.deny "User denied"))) ∧
    (∀ b uOpt, (exGateC6.resolve "perm_1" b uOpt).1.pendingPermissions.lookup "perm_1" =
        none ∧
      (exGateC6.resolve "perm_1" b uOpt).1.pendingQuestions = exGateC6.pendingQuestions)) :=
  ⟨rfl, permissionGate_resolve_correct exGateC6 "perm_1" [("command", .str "ls")] rfl⟩

/-- C9: resolving or answering an id with no pending entry fails with a
"No pending" error, leaves both registries unchanged, and emits nothing;
in particular a second resolve of an id just resolved fails that way. -/
theorem permissionGate_no_pending (g : PermissionGate) (id : String) :
    (g.pendingPermissions.lookup id = none → ∀ b uOpt,
      g.resolve id b uOpt = (g, [], .error ("No pending permission with id: " ++ id))) ∧
    (g.pendingQuestions.contains id = false → ∀ ans,
      g.answerQuestion id ans = (g, [], .error ("No pending question with id: " ++ id))) ∧
    (∀ b uOpt g' evs r, g.resolve id b uOpt = (g', evs, .ok r) → ∀ b' uOpt',
      g'.resolve id b' uOpt' =
        (g', [], .error ("No pending permission with id: " ++ id))) := by
  refine ⟨?_, ?_, ?_⟩
  · intro h b uOpt
    unfold PermissionGate.resolve
    rw [h]
  · intro h ans
    unfold PermissionGate.answerQuestion
    rw [h]
    rfl
  · intro b uOpt g' evs r hok b' uOpt'
    rcases hl : g.pendingPermissions.lookup id with _ | input
    · unfold PermissionGate.resolve at hok
      rw [hl] at hok
      exact absurd (congrArg (fun t => t.2.2) hok) (by simp)
    · unfold PermissionGate.resolve at hok
      rw [hl] at hok
      have hg' : g' = { g with pendingPermissions :=
          g.pendingPermissions.filter (fun p => !(p.1 == id)) } :=
        (congrArg (fun t => t.1) hok).symm
      have hnone : g'.pendingPermissions.lookup id = none := by
        rw [hg']
        exact lookup_filter_ne g.pendingPermissions id
      unfold PermissionGate.resolve
      rw [hnone]

/-- An empty gate, for the C9 witness. -/
def exGateC9 : PermissionGate :=
  { nextId := 0, pendingPermissions := [], pendingQuestions := [] }

/-- C9 witness: the theorem applied to the empty gate and an unknown
id. -/
theorem permissionGate_no_pending_witness :
    exGateC9.pendingPermissions.lookup "perm_7" = none ∧
    exGateC9.pendingQuestions.contains "question_7" = false ∧
    (∀ b uOpt, exGateC9.resolve "perm_7" b uOpt =
      (exGateC9, [], .error "No pending permission with id: perm_7")) ∧
    (∀ ans, exGateC9.answerQuestion "question_7" ans =
      (exGateC9, [], .error "No pending question with id: question_7")) :=
  ⟨rfl, rfl,
    fun b uOpt => (permissionGate_no_pending exGateC9 "perm_7").1 rfl b uOpt,
    fun ans => (permissionGate_no_pending exGateC9 "question_7").2.1 rfl ans⟩

/-! ## Push channel (packages/claude/src/push-channel.ts)

The channel's sequential state is its queue and closed flag.  The
parked-waiter branch of `push`/`close` is the promise hand-off to a
suspended consumer; in the scenarios modelled here (producer finishes
before the consumer drains) the `waiting` slot is always null, so the
hand-off branch is never taken and the sequential model coincides with
the source. -/

structure PushChannel (T : Type) where
  queue : List T
  closed : Bool

/-- A fresh channel: empty queue, open. -/
def PushChannel.init {T : Type} : PushChannel T :=
  { queue := [], closed := false }

/-- Model of `push`: discarded silently when closed, else enqueued. -/
def PushChannel.push {T : Type} (c : PushChannel T) (v : T) : PushChannel T :=
  if c.closed then c else { c with queue := c.queue ++ [v] }

/-- Model of `close`: set the closed flag (idempotent). -/
def PushChannel.close {T : Type} (c : PushChannel T) : PushChannel T :=
  { c with closed := true }

/-- Push a whole sequence in order. -/
def PushChannel.pushAll {T : Type} (c : PushChannel T) (vs : List T) : PushChannel T :=
  vs.foldl PushChannel.push c

/-- Model of async iteration via the iterator's `next`: yield queued
values in order; on an empty queue the iteration terminates when the
channel is closed (`true`) and would suspend forever otherwise
(`false`). -/
def PushChannel.drain {T : Type} (c : PushChannel T) : List T × Bool :=
  match h : c.queue with
  | [] => ([], c.closed)
  | v :: rest =>
    let p := PushChannel.drain { c with queue := rest }
    (v :: p.1, p.2)
termination_by c.queue.length
decreasing_by simp [h]

theorem pushAll_open {T : Type} (vs : List T) :
    ∀ q : List T, PushChannel.pushAll { queue := q, closed := false } vs =
      { queue := q ++ vs, closed := false } := by
  induction vs with
  | nil => intro q; simp [PushChannel.pushAll]
  | cons v t ih =>
    intro q
    unfold PushChannel.pushAll at *
    simp only [List.foldl_cons]
    rw [show PushChannel.push { queue := q, closed := false } v =
      { queue := q ++ [v], closed := false } from rfl]
    rw [ih (q ++ [v])]
    simp

theorem drain_closed {T : Type} (vs : List T) :
    PushChannel.drain { queue := vs, closed := true } = (vs, true) := by
  induction vs with
  | nil => simp [PushChannel.drain]
  | cons v t ih =>
    rw [PushChannel.drain]
    simp [ih]

/-- C7: iterating a channel after pushing `S` and closing yields exactly
`S` in push order and terminates; a push after close is discarded, so
`push v; close; push v'` yields `[v]` only. -/
theorem pushChannel_fifo {T : Type} :
    (∀ S : List T, (PushChannel.init.pushAll S).close.drain = (S, true)) ∧
    (∀ v v' : T, (((PushChannel.init.push v).close).push v').drain = ([v], true)) := by
  constructor
  · intro S
    have h1 : (PushChannel.init.pushAll S : PushChannel T) =
        { queue := S, closed := false } := by
      have := pushAll_open S ([] : List T)
      simpa [PushChannel.init] using this
    rw [h1]
    rw [show ({ queue := S, closed := false } : PushChannel T).close =
      { queue := S, closed := true } from rfl]
    exact drain_closed S
  · intro v v'
    rw [show (((PushChannel.init.push v).close).push v' : PushChannel T) =
      { queue := [v], closed := true } from rfl]
    exact drain_closed [v]

/-! ## Session and session manager (session.ts)

`SessionManager.create` is effectful (channels, a background driver
task); the embedding models the parts the claims are about: the options
record passed to the engine factory, the input channel after the
initial-prompt push, and the session's mutable abort state.  Reading an
absent object key in JavaScript yields `undefined`, modelled as
`none`. -/

/-- A reference to the gate's bound `request` method, as a value the
engine factory could receive as its permission handler. -/
inductive PermHandlerRef where
  | gateRequest : PermHandlerRef
deriving DecidableEq

/-- The engine-facing user message shape. -/
structure SDKUserMessage where
  role : String
  content : String
  parentToolUseId : Option String
  sessionId : String

/-- Model of `userMessage`: role `user`, null parent, empty session
id. -/
def userMessage (content : String) : SDKUserMessage :=
  { role := "user", content := content, parentToolUseId := none, sessionId := "" }

/-- The record `SessionManager.create` passes to `config.queryFn`; the
`permissionHandler` key is how the claude config's `queryFn`
destructures its argument. -/
structure QueryFnOpts where
  prompt : PushChannel SDKUserMessage
  permissionHandler : Option PermHandlerRef

/-- What `SessionManager.create` computes before the driver runs: the
argument record of the `queryFn` call (`{ prompt: inputChannel }` in the
source — no `permissionHandler` key, hence `none`), the input channel
after `inputChannel.push(userMessage(initialPrompt))`, and the initial
abort flag. -/
structure SessionInit where
  queryOpts : QueryFnOpts
  inputAfterStart : PushChannel SDKUserMessage
  aborted : Bool

/-- Model of the session-creation procedure of `SessionManager.create`
(the parts preceding and surrounding the engine invocation). -/
def SessionManager.create (initialPrompt : String) : SessionInit :=
  let inputChannel : PushChannel SDKUserMessage := PushChannel.init
  { queryOpts := { prompt := inputChannel, permissionHandler := none }
    inputAfterStart := inputChannel.push (userMessage initialPrompt)
    aborted := false }

/-- C2 (code evaluation): for every initial prompt, the record
`SessionManager.create` hands the engine factory carries no
`permissionHandler` — reading that key yields `undefined`, not the
gate's `request` method the claim (and `createClaudeConfig`, the tests
and the spec) expect. -/
theorem sessionCreate_no_permissionHandler (initialPrompt : String) :
    (SessionManager.create initialPrompt).queryOpts.permissionHandler = none ∧
    (SessionManager.create initialPrompt).queryOpts.permissionHandler ≠
      some PermHandlerRef.gateRequest ∧
    (SessionManager.create initialPrompt).inputAfterStart =
      PushChannel.init.push (userMessage initialPrompt) :=
  ⟨rfl, by simp [SessionManager.create], rfl⟩

/-- A session's runtime state: the abort flag the driver observes, both
channels, and whether the engine's abort handle (the `abort` function
the engine factory returned) has been invoked — `session.ts` never
references it. -/
structure Session where
  aborted : Bool
  input : PushChannel SDKUserMessage
  output : PushChannel AgentEvent
  engineAbortCalled : Bool

/-- Model of `Session.abort`: set the flag, close both channels.  The
engine's abort handle is not invoked. -/
def Session.abort (s : Session) : Session :=
  { s with
      aborted := true
      input := s.input.close
      output := s.output.close }

/-- C3 (amended): `abort` sets the aborted flag the driver observes
between engine messages and closes both channels, but leaves the
engine's abort handle uninvoked. -/
theorem session_abort_spec (s : Session) :
    (s.abort).aborted = true ∧ (s.abort).input.closed = true ∧
    (s.abort).output.closed = true ∧
    (s.abort).engineAbortCalled = s.engineAbortCalled :=
  ⟨rfl, rfl, rfl, rfl⟩

/-- A live session whose engine abort handle has not been invoked. -/
def exSessionC3 : Session :=
  { aborted := false, input := PushChannel.init, output := PushChannel.init,
    engineAbortCalled := false }

/-- C3 counterexample: aborting the concrete session sets the flag and
closes both channels, yet the engine's abort handle remains uninvoked —
refuting the claim that `abort` invokes it. -/
theorem session_abort_cex :
    exSessionC3.abort.aborted = true ∧ exSessionC3.abort.input.closed = true ∧
    exSessionC3.abort.output.closed = true ∧
    exSessionC3.abort.engineAbortCalled = false ∧
    exSessionC3.abort.engineAbortCalled ≠ true :=
  ⟨rfl, rfl, rfl, rfl, by decide⟩

/-! ## Respond endpoint (packages/claude/src/router.ts)

The `POST /sessions/:id/respond` handler after the session lookup: the
parsed JSON body with its optional fields, the dispatch on `kind` with
the `?? "deny"` and `?? ""` defaults, and the try/catch converting a
gate throw into a 400 response. -/

/-- The parsed respond body; absent JSON keys are `none`. -/
structure RespondBody where
  kind : String
  id : String
  behavior : Option Behavior
  updatedInput : Option (List (String × Json))
  answer : Option String

/-- The handler's response: `{ok:true}` or a 400 error body. -/
inductive RespondOutcome where
  | ok200 : RespondOutcome
  | badRequest400 (msg : String) : RespondOutcome
deriving DecidableEq

/-- Model of the respond handler's dispatch (session already found):
`kind=="permission"` resolves with `body.behavior ?? "deny"`,
`kind=="question"` answers with `body.answer ?? ""`, anything else is
400 `Invalid kind`; a gate throw is caught and becomes 400 with the
state unchanged. -/
def handleRespond (g : PermissionGate) (body : RespondBody) :
    PermissionGate × List AgentEvent × RespondOutcome :=
  if body.kind = "permission" then
    match g.resolve body.id (body.behavior.getD .deny) body.updatedInput with
    | (g', evs, .ok _) => (g', evs, .ok200)
    | (_, _, .error _) => (g, [], .badRequest400 "No pending request with this ID")
  else if body.kind = "question" then
    match g.answerQuestion body.id (body.answer.getD "") with
    | (g', evs, .ok _) => (g', evs, .ok200)
    | (_, _, .error _) => (g, [], .badRequest400 "No pending request with this ID")
  else (g, [], .badRequest400 "Invalid kind")

/-- A permission respond body with the `behavior` field omitted. -/
def omittedBehaviorBody (id : String) : RespondBody :=
  { kind := "permission", id := id, behavior := none, updatedInput := none, answer := none }

/-- A question respond body with the `answer` field omitted. -/
def omittedAnswerBody (id : String) : RespondBody :=
  { kind := "question", id := id, behavior := none, updatedInput := none, answer := none }

/-- C10: a permission respond whose body omits `behavior` resolves the
pending permission as a deny (entry removed, `permission_resolved
{id, deny}` emitted, the request's future resolved with
`{deny, "User denied"}`, 200 response), and a question respond whose
body omits `answer` resolves the question with the empty string. -/
theorem respond_omitted_defaults (g : PermissionGate) (id : String)
    (input : List (String × Json)) :
    (g.pendingPermissions.lookup id = some input →
      handleRespond g (omittedBehaviorBody id) =
        ({ g with pendingPermissions :=
            g.pendingPermissions.filter (fun p => !(p.1 == id)) },
          [.permissionResolved id .deny], .ok200) ∧
      (g.resolve id ((none : Option Behavior).getD .deny) none).2.2 =
        .ok (.deny "User denied")) ∧
    (g.pendingQuestions.contains id = true →
      handleRespond g (omittedAnswerBody id) =
        ({ g with pendingQuestions := g.pendingQuestions.filter (fun q => !(q == id)) },
          [.userQuestionAnswered id ""], .ok200)) := by
  constructor
  · intro h
    have hres := resolve_pending_deny g id input h none
    constructor
    · unfold handleRespond omittedBehaviorBody
      simp only [if_pos rfl]
      rw [show (none : Option Behavior).getD .deny = .deny from rfl, hres]
      simp
    · rw [show (none : Option Behavior).getD .deny = .deny from rfl, hres]
  · intro h
    unfold handleRespond omittedAnswerBody
    simp only [show ("question" = "permission") = False by simp, if_false, if_pos rfl]
    unfold PermissionGate.answerQuestion
    rw [h]
    simp

/-- A gate with one pending permission and one pending question, for
the C10 witness. -/
def exGateC10 : PermissionGate :=
  { nextId := 2, pendingPermissions := [("perm_1", [("file", .str "a.ts")])],
    pendingQuestions := ["question_2"] }

/-- C10 witness: the defaults theorem applied to the concrete gate. -/
theorem respond_omitted_defaults_witness :
    exGateC10.pendingPermissions.lookup "perm_1" = some [("file", .str "a.ts")] ∧
    exGateC10.pendingQuestions.contains "question_2" = true ∧
    handleRespond exGateC10 (omittedBehaviorBody "perm_1") =
      ({ exGateC10 with pendingPermissions :=
          exGateC10.pendingPermissions.filter (fun p => !(p.1 == "perm_1")) },
        [.permissionResolved "perm_1" .deny], .ok200) ∧
    handleRespond exGateC10 (omittedAnswerBody "question_2") =
      ({ exGateC10 with pendingQuestions :=
          exGateC10.pendingQuestions.filter (fun q => !(q == "question_2")) },
        [.userQuestionAnswered "question_2" ""], .ok200) :=
  ⟨rfl, rfl,
    ((respond_omitted_defaults exGateC10 "perm_1" [("file", .str "a.ts")]).1 rfl).1,
    (respond_omitted_defaults exGateC10 "question_2" [("file", .str "a.ts")]).2 rfl⟩

end AgentConduit
